import Mathlib

/-!
# Verification of the fecp2p resilient-delivery pipeline

Shallow embedding of `src/main.rs`: a demo that concatenates fixed-length
(32-byte) records into a buffer, encodes the buffer with a fountain-style FEC
transform (the external `raptorq` crate), simulates packet loss by shuffling
and truncating the packet stream, feeds surviving packets one at a time into a
decoding session until the first success, and re-chunks the recovered buffer
into 32-byte records.

Bytes are modelled as `Nat` (the source's `u8` values all arise from hex
decoding, which produces values `< 256`; no arithmetic overflows byte range,
so no reduction mod 256 is needed). Randomness (`thread_rng` shuffling) is
modelled by quantifying over an arbitrary permutation of the packet stream.
-/

/-- Payload identifier of an encoded packet: source block number plus
encoding symbol index (`pkt.payload_id()` in the source). -/
structure PayloadId where
  sbn : Nat
  esi : Nat
deriving DecidableEq, Repr

/-- An encoded packet (`raptorq::EncodingPacket`): a payload identifier and a
data chunk (`pkt.data()`). -/
structure Packet where
  payloadId : PayloadId
  data : List Nat
deriving DecidableEq, Repr

/-- Transform configuration (`encoder.get_config()`): transfer length of the
source buffer plus the symbol size, shared out-of-band with the decoder. -/
structure FecConfig where
  transferLength : Nat
  symbolSize : Nat
deriving DecidableEq, Repr

/-- `SYMBOL_SIZE` constant from `src/main.rs` line 6. -/
def SYMBOL_SIZE : Nat := 128

/-- `REPAIR_PACKETS_PER_BLOCK` constant from `src/main.rs` line 7. -/
def REPAIR_PACKETS_PER_BLOCK : Nat := 10

/-- `SIMULATED_LOSS` constant from `src/main.rs` line 8. -/
def SIMULATED_LOSS : Nat := 8

/-- Value of a single hex digit character, by its code point
(48–57 are the digits, 97–102 are lowercase a–f, 65–70 uppercase A–F);
`none` on a non-hex character. Models a digit step of `hex::decode`. -/
def hexDigit (c : Char) : Option Nat :=
  if 48 ≤ c.toNat ∧ c.toNat ≤ 57 then some (c.toNat - 48)
  else if 97 ≤ c.toNat ∧ c.toNat ≤ 102 then some (c.toNat - 97 + 10)
  else if 65 ≤ c.toNat ∧ c.toNat ≤ 70 then some (c.toNat - 65 + 10)
  else none

/-- `hex::decode` on a record string: consumes characters two at a time into
one byte each; fails on an odd-length string or a non-hex character. -/
def hexDecode : List Char → Option (List Nat)
  | [] => some []
  | [_] => none
  | c1 :: c2 :: rest =>
    match hexDigit c1, hexDigit c2, hexDecode rest with
    | some hi, some lo, some tail => some ((16 * hi + lo) :: tail)
    | _, _, _ => none

/-- The error taxonomy of assembly. In the source a bad hex encoding aborts
`main` through the `?` operator and a wrong decoded length aborts through
`assert_eq!(bytes.len(), 32)`; both abort before anything downstream runs and
are the spec's `MalformedRecord` condition. -/
inductive AssembleError where
  | malformedRecord
deriving DecidableEq, Repr

/-- Source Assembler (`src/main.rs` lines 24–30): hex-decode each record,
check its length is exactly 32 bytes, and concatenate the decoded bytes in
input order (`data_bytes.extend_from_slice`). -/
def assemble : List (List Char) → Except AssembleError (List Nat)
  | [] => .ok []
  | r :: rs =>
    match hexDecode r with
    | none => .error .malformedRecord
    | some bytes =>
      if bytes.length = 32 then
        match assemble rs with
        | .error e => .error e
        | .ok rest => .ok (bytes ++ rest)
      else .error .malformedRecord

/-! ## The FEC Transform, modelled from the spec

Modelled from the spec: the FEC Transform is the external `raptorq` crate,
declared out of scope by the spec ("consumed as a black-box capability") and
not part of this repository's sources. Following the spec's consumed
contract (§6): `encode(buffer, symbol_size)` yields a configuration and a
systematic packet stream of all source symbols followed by repair symbols;
`session.feed(packet)` returns the reconstructed bytes once enough symbols
have been observed, otherwise "not yet". The model uses a single source
block; source symbol `i` carries the buffer slice `[i*s, i*s + s)`, and the
model session reconstructs as soon as every source symbol has been observed
(repair symbol content is opaque to the model decoder). -/

/-- Number of source symbols for a buffer of the configured transfer length:
the ceiling of `transferLength / symbolSize`. -/
def sourceSymbolCount (c : FecConfig) : Nat :=
  (c.transferLength + c.symbolSize - 1) / c.symbolSize

/-- The slice of the buffer carried by source symbol `i` (symbol size `s`). -/
def chunkAt (data : List Nat) (s i : Nat) : List Nat :=
  (data.drop (i * s)).take s

/-- `encoder.get_config()`: the configuration derived from the buffer and the
symbol size. -/
def encodeConfig (data : List Nat) (s : Nat) : FecConfig :=
  ⟨data.length, s⟩

/-- `encoder.get_encoded_packets(repairCount)`: all source symbols in natural
order, followed by `repairCount` repair symbols (single source block). -/
def encodePackets (data : List Nat) (s : Nat) (repairCount : Nat) : List Packet :=
  let K := sourceSymbolCount (encodeConfig data s)
  ((List.range K).map fun i => ⟨⟨0, i⟩, chunkAt data s i⟩)
    ++ ((List.range repairCount).map fun j => ⟨⟨0, K + j⟩, List.replicate s 0⟩)

/-- State of a decoding session (`raptorq::Decoder`): the configuration and
the source symbols received so far, keyed by encoding symbol index. -/
structure DecState where
  cfg : FecConfig
  received : List (Nat × List Nat)
deriving DecidableEq, Repr

/-- `Decoder::new(oti)`: a fresh decoding session, nothing received. -/
def initDecState (c : FecConfig) : DecState := ⟨c, []⟩

/-- Whether every source symbol has been observed. -/
def DecState.complete (st : DecState) : Bool :=
  (List.range (sourceSymbolCount st.cfg)).all fun i => (st.received.lookup i).isSome

/-- The buffer assembled from the received source symbols, in symbol order. -/
def DecState.assembled (st : DecState) : List Nat :=
  ((List.range (sourceSymbolCount st.cfg)).map
    fun i => (st.received.lookup i).getD []).flatten

/-- The session state after observing one packet: a source symbol is
recorded, anything else leaves the state unchanged. -/
def updState (st : DecState) (p : Packet) : DecState :=
  if p.payloadId.esi < sourceSymbolCount st.cfg then
    ⟨st.cfg, (p.payloadId.esi, p.data) :: st.received⟩
  else st

/-- `decoder.decode(packet)`: record the packet if it is a source symbol,
then return the reconstructed buffer if complete, else "not yet". -/
def DecState.feed (st : DecState) (p : Packet) : DecState × Option (List Nat) :=
  let st' := updState st p
  if st'.complete then (st', some st'.assembled) else (st', none)

/-! ## Channel Simulator and Incremental Reconstructor (from the source) -/

/-- Channel Simulator (`src/main.rs` lines 60–63): the caller shuffles the
stream (modelled by passing the shuffled list), then
`truncate(len.saturating_sub(loss))` keeps the first `len - loss` packets
(`Nat` subtraction is exactly `saturating_sub`). -/
def channelSim (shuffled : List Packet) (loss : Nat) : List Packet :=
  shuffled.take (shuffled.length - loss)

/-- Incremental Reconstructor (`src/main.rs` lines 71–78): feed surviving
packets one at a time; on the first `Some(data)` the loop `break`s with that
data; if the supply is exhausted the result stays `None`. Generic in the
decoding session so that the loop's control flow is exactly the source's. -/
def reconstruct {σ : Type} (feed : σ → Packet → σ × Option (List Nat)) :
    σ → List Packet → Option (List Nat)
  | _, [] => none
  | st, p :: rest =>
    match feed st p with
    | (_, some d) => some d
    | (st', none) => reconstruct feed st' rest

/-- The trace of a run of the feed loop in which the session never completes:
every feed along the way answers "not yet". -/
def allFeedsFail {σ : Type} (feed : σ → Packet → σ × Option (List Nat)) :
    σ → List Packet → Prop
  | _, [] => True
  | st, p :: rest => (feed st p).2 = none ∧ allFeedsFail feed (feed st p).1 rest

/-! ## Verifier/Reporter and process outcome (from the source) -/

/-- Worker for `chunksExact`, structurally recursive on a fuel argument so
that it reduces definitionally; `fuel ≥ l.length` makes it total on `l`
(each step with `0 < s` shortens `l` by at least one element). -/
def chunksExactGo (fuel : Nat) (s : Nat) (l : List Nat) : List (List Nat) :=
  match fuel with
  | 0 => []
  | fuel + 1 =>
    if 0 < s ∧ s ≤ l.length then
      l.take s :: chunksExactGo fuel s (l.drop s)
    else []

/-- `recovered.chunks_exact(32)` generalised: the maximal sequence of
consecutive full `s`-element chunks of `l`; a remainder shorter than `s` is
not yielded. -/
def chunksExact (s : Nat) (l : List Nat) : List (List Nat) :=
  chunksExactGo l.length s l

/-- Verifier (`src/main.rs` lines 84–86): re-chunk the recovered buffer into
32-byte records (`recovered.chunks_exact(32)`), each printed as a recovered
hash. -/
def verify (recovered : List Nat) : List (List Nat) :=
  chunksExact 32 recovered

/-- Outcome of the `match reconstructed` at `src/main.rs` lines 80–91:
either full success with the recovered 32-byte records, or the failure notice
(the spec's `InsufficientRedundancy`). -/
inductive Outcome where
  | ok (hashes : List (List Nat))
  | insufficientRedundancy
deriving DecidableEq, Repr

/-- The terminal `match` of `main`: a reconstructed buffer is verified and
reported, `None` becomes the failure notice. Both arms fall through to
`Ok(())`. -/
def finish (r : Option (List Nat)) : Outcome :=
  match r with
  | some recovered => .ok (verify recovered)
  | none => .insufficientRedundancy

/-- The whole of `main`, parametrised by the inputs the source hard-codes
(records, symbol size, repair count, loss count) and by the shuffle performed
by `thread_rng`. An `Except.error` is `main` aborting before the pipeline
(the `?` operator / the length assertion); every reconstruction outcome ends
in `Except.ok`, mirroring `main` returning `Ok(())` from both `match` arms. -/
def runPipeline (records : List (List Char)) (s repairCount loss : Nat)
    (shuffle : List Packet → List Packet) : Except AssembleError Outcome :=
  match assemble records with
  | .error e => .error e
  | .ok dataBytes =>
    let oti := encodeConfig dataBytes s
    let packets := encodePackets dataBytes s repairCount
    let received := channelSim (shuffle packets) loss
    .ok (finish (reconstruct DecState.feed (initDecState oti) received))

/-- Process exit status of `main`: `0` for `Ok(())`, nonzero for `Err`. -/
def exitCode (r : Except AssembleError Outcome) : Nat :=
  match r with
  | .ok _ => 0
  | .error _ => 1

/-- Packet preview (`src/main.rs` line 49):
`&pkt.data()[..std::cmp::min(8, pkt.data().len())]`. -/
def preview (p : Packet) : List Nat :=
  p.data.take (min 8 p.data.length)

/-! ## Helper lemmas -/

/-- A run of the feed loop in which every feed answers "not yet" ends with no
reconstruction. -/
theorem reconstruct_eq_none_of_allFeedsFail {σ : Type}
    (feed : σ → Packet → σ × Option (List Nat)) :
    ∀ (pkts : List Packet) (st : σ), allFeedsFail feed st pkts →
      reconstruct feed st pkts = none := by
  intro pkts
  induction pkts with
  | nil => intro st _; rfl
  | cons p rest ih =>
    intro st h
    obtain ⟨h1, h2⟩ := h
    rcases hfp : feed st p with ⟨st', o⟩
    rw [hfp] at h1 h2
    simp only at h1
    subst h1
    simp only [reconstruct, hfp]
    exact ih st' h2

/-- Taking up to `min n l.length` elements is the same as taking up to `n`. -/
theorem take_min_length (l : List Nat) (n : Nat) :
    l.take (min n l.length) = l.take n := by
  rw [List.take_eq_take]
  omega

/-! ## Claims -/

/-- C3: the Incremental Reconstructor feeds surviving packets one at a time
and, as soon as the decoding session returns a completed buffer, stops
immediately: the result is that buffer itself, and it does not depend on the
remaining unconsumed packets `rest`, which are discarded without being fed. -/
theorem claim_C3_early_termination {σ : Type}
    (feed : σ → Packet → σ × Option (List Nat)) (st st' : σ) (p : Packet)
    (d : List Nat) (h : feed st p = (st', some d)) (rest : List Packet) :
    reconstruct feed st (p :: rest) = some d := by
  simp only [reconstruct, h]

/-- Witness for C3 at a concrete session whose first feed succeeds: the
result is the fed-back buffer, for two different tails of unconsumed
packets. -/
theorem claim_C3_early_termination_witness :
    reconstruct (fun (st : Unit) (_ : Packet) => (st, some [7])) ()
        [⟨⟨0, 0⟩, []⟩] = some [7] ∧
      reconstruct (fun (st : Unit) (_ : Packet) => (st, some [7])) ()
        [⟨⟨0, 0⟩, []⟩, ⟨⟨0, 1⟩, [5]⟩] = some [7] :=
  ⟨claim_C3_early_termination (fun st _ => (st, some [7])) () () ⟨⟨0, 0⟩, []⟩
      [7] rfl [],
    claim_C3_early_termination (fun st _ => (st, some [7])) () () ⟨⟨0, 0⟩, []⟩
      [7] rfl [⟨⟨0, 1⟩, [5]⟩]⟩

/-- C4: if the surviving packet set is empty, or is fully consumed with the
decoding session never returning a completed buffer, the pipeline's terminal
outcome is the structured `InsufficientRedundancy` failure notice (the total
function `finish` — not a crash, and a single pass with no retry). -/
theorem claim_C4_exhaustion {σ : Type}
    (feed : σ → Packet → σ × Option (List Nat)) (st : σ) (pkts : List Packet)
    (h : pkts = [] ∨ allFeedsFail feed st pkts) :
    reconstruct feed st pkts = none ∧
      finish (reconstruct feed st pkts) = Outcome.insufficientRedundancy := by
  have hnone : reconstruct feed st pkts = none := by
    rcases h with h | h
    · subst h; rfl
    · exact reconstruct_eq_none_of_allFeedsFail feed pkts st h
  exact ⟨hnone, by rw [hnone]; rfl⟩

/-- Witness for C4 at a concrete session that never completes, on an empty
set and on a fully consumed one-packet set. -/
theorem claim_C4_exhaustion_witness :
    (finish (reconstruct (fun (st : Unit) (_ : Packet) => (st, none)) () []) =
        Outcome.insufficientRedundancy) ∧
      finish (reconstruct (fun (st : Unit) (_ : Packet) => (st, none)) ()
          [⟨⟨0, 0⟩, [1]⟩]) = Outcome.insufficientRedundancy :=
  ⟨(claim_C4_exhaustion (fun st _ => (st, none)) () [] (Or.inl rfl)).2,
    (claim_C4_exhaustion (fun st _ => (st, none)) () [⟨⟨0, 0⟩, [1]⟩]
      (Or.inr ⟨rfl, trivial⟩)).2⟩

/-- C10: the preview slice bound is `min 8 len`, which never exceeds the
packet's data length; the preview is the initial `min 8 len` bytes of the
packet's data (equivalently its first up-to-8 bytes), a total function that
cannot fault even on data shorter than 8 bytes. -/
theorem claim_C10_preview_safe (p : Packet) :
    min 8 p.data.length ≤ p.data.length ∧
      (preview p).length = min 8 p.data.length ∧
      preview p = p.data.take 8 := by
  refine ⟨Nat.min_le_right _ _, ?_, ?_⟩
  · simp only [preview, List.length_take]
    omega
  · exact take_min_length p.data 8

/-- C2: for every packet stream of length `N`, any shuffled order of it, and
every loss count `k`, the Channel Simulator outputs a surviving set of length
`max(0, N - k)`; when `k ≥ N` the output is empty, the simulation is a total
function (no fault), and the Reconstructor given that empty set reports the
`InsufficientRedundancy` failure outcome rather than faulting. -/
theorem claim_C2_loss_count (stream shuffled : List Packet) (k : Nat)
    (hperm : shuffled.Perm stream) :
    ((channelSim shuffled k).length : Int) = max 0 ((stream.length : Int) - k) ∧
      (stream.length ≤ k → channelSim shuffled k = []) ∧
      ∀ (σ : Type) (feed : σ → Packet → σ × Option (List Nat)) (st : σ),
        stream.length ≤ k →
          finish (reconstruct feed st (channelSim shuffled k)) =
            Outcome.insufficientRedundancy := by
  have hlen : shuffled.length = stream.length := hperm.length_eq
  have hempty : stream.length ≤ k → channelSim shuffled k = [] := by
    intro hk
    have h0 : shuffled.length - k = 0 := by omega
    simp [channelSim, h0]
  refine ⟨?_, hempty, ?_⟩
  · simp only [channelSim, List.length_take]
    omega
  · intro σ feed st hk
    rw [hempty hk]
    rfl

/-- Witness for C2: a concrete one-packet stream with loss count 5 in
identity order: the surviving set is empty and the Reconstructor (the
concrete decoding session) reports `InsufficientRedundancy`. -/
theorem claim_C2_loss_count_witness :
    ((channelSim [⟨⟨0, 0⟩, [1]⟩] 5).length : Int) =
        max 0 ((([(⟨⟨0, 0⟩, [1]⟩ : Packet)].length : Int)) - 5) ∧
      channelSim [⟨⟨0, 0⟩, [1]⟩] 5 = [] ∧
      finish (reconstruct DecState.feed (initDecState ⟨1, 1⟩)
          (channelSim [⟨⟨0, 0⟩, [1]⟩] 5)) = Outcome.insufficientRedundancy :=
  ⟨(claim_C2_loss_count [⟨⟨0, 0⟩, [1]⟩] [⟨⟨0, 0⟩, [1]⟩] 5 (List.Perm.refl _)).1,
    (claim_C2_loss_count [⟨⟨0, 0⟩, [1]⟩] [⟨⟨0, 0⟩, [1]⟩] 5
      (List.Perm.refl _)).2.1 (by decide),
    (claim_C2_loss_count [⟨⟨0, 0⟩, [1]⟩] [⟨⟨0, 0⟩, [1]⟩] 5
      (List.Perm.refl _)).2.2 DecState DecState.feed (initDecState ⟨1, 1⟩)
      (by decide)⟩

/-- C9: the Channel Simulator's output is a subset of the original packet
stream — shuffling (any permutation of the stream) then truncating never
yields a packet that is not in the generated stream, so no packet is invented
and no surviving packet's payload identifier or data chunk is mutated. -/
theorem claim_C9_subset (stream shuffled : List Packet) (k : Nat) (p : Packet)
    (hperm : shuffled.Perm stream) (hp : p ∈ channelSim shuffled k) :
    p ∈ stream :=
  hperm.subset (List.take_subset _ _ hp)

/-- Witness for C9: a concrete two-packet stream, shuffled into reverse
order, with one packet lost: the surviving packet is in the original
stream. -/
theorem claim_C9_subset_witness :
    (⟨⟨0, 1⟩, [2]⟩ : Packet) ∈
        channelSim [⟨⟨0, 1⟩, [2]⟩, ⟨⟨0, 0⟩, [1]⟩] 1 ∧
      (⟨⟨0, 1⟩, [2]⟩ : Packet) ∈ [⟨⟨0, 0⟩, [1]⟩, ⟨⟨0, 1⟩, [2]⟩] :=
  ⟨by decide,
    claim_C9_subset [⟨⟨0, 0⟩, [1]⟩, ⟨⟨0, 1⟩, [2]⟩]
      [⟨⟨0, 1⟩, [2]⟩, ⟨⟨0, 0⟩, [1]⟩] 1 ⟨⟨0, 1⟩, [2]⟩ (by decide) (by decide)⟩

/-- Full specification of a successful assembly: the buffer is the ordered
concatenation of the decoded records, its length is `32 × record_count`, and
record `i` occupies the byte range `[i*32, (i+1)*32)`. -/
theorem assemble_ok_spec :
    ∀ (records : List (List Char)) (buf : List Nat),
      assemble records = .ok buf →
      buf = (records.map fun r => (hexDecode r).getD []).flatten ∧
        buf.length = 32 * records.length ∧
        ∀ (i : Nat) (hi : i < records.length),
          hexDecode (records.get ⟨i, hi⟩) =
            some ((buf.drop (i * 32)).take 32) := by
  intro records
  induction records with
  | nil =>
    intro buf h
    simp only [assemble, Except.ok.injEq] at h
    subst h
    refine ⟨rfl, rfl, ?_⟩
    intro i hi
    exact absurd hi (by simp)
  | cons r rs ih =>
    intro buf h
    simp only [assemble] at h
    split at h
    · exact absurd h (by simp)
    next bytes hd =>
      split at h
      next hb =>
        split at h
        next e ha => exact absurd h (by simp)
        next rest ha =>
          injection h with h
          subst h
          obtain ⟨ih1, ih2, ih3⟩ := ih rest ha
          refine ⟨?_, ?_, ?_⟩
          · simp only [List.map_cons, List.flatten_cons, hd, Option.getD_some]
            rw [← ih1]
          · simp only [List.length_append, List.length_cons, ih2]
            omega
          · intro i hi
            cases i with
            | zero =>
              show hexDecode r = _
              simp only [Nat.zero_mul, List.drop_zero]
              rw [List.take_left' hb, hd]
            | succ i =>
              have hi' : i < rs.length := by
                simpa using Nat.lt_of_succ_lt_succ hi
              show hexDecode (rs.get ⟨i, hi'⟩) = _
              have h32 : (i + 1) * 32 = bytes.length + i * 32 := by
                rw [hb]; ring
              rw [h32, List.drop_append]
              exact ih3 i hi'
      next hb => exact absurd h (by simp)

/-- C5: the Source Assembler produces the source buffer as the concatenation
of all input records in input order, byte-for-byte with no padding or
delimiters: the buffer is the flattening of the decoded records, its length
is `record_count × 32`, and record `i` occupies byte range
`[i*32, (i+1)*32)` of the buffer. -/
theorem claim_C5_assembler (records : List (List Char)) (buf : List Nat)
    (h : assemble records = .ok buf) :
    buf = (records.map fun r => (hexDecode r).getD []).flatten ∧
      buf.length = records.length * 32 ∧
      ∀ (i : Nat) (hi : i < records.length),
        hexDecode (records.get ⟨i, hi⟩) =
          some ((buf.drop (i * 32)).take 32) := by
  obtain ⟨h1, h2, h3⟩ := assemble_ok_spec records buf h
  exact ⟨h1, by omega, h3⟩

/-- Witness for C5 on a concrete single all-zero record: assembly succeeds,
the buffer has length `1 × 32`, and record `0` occupies bytes
`[0, 32)`. -/
theorem claim_C5_assembler_witness :
    assemble [List.replicate 64 '0'] = .ok (List.replicate 32 0) ∧
      (List.replicate 32 (0 : Nat)).length = 1 * 32 ∧
      hexDecode ([List.replicate 64 '0'].get ⟨0, by decide⟩) =
        some (((List.replicate 32 (0 : Nat)).drop (0 * 32)).take 32) := by
  have h : assemble [List.replicate 64 '0'] = .ok (List.replicate 32 0) := by
    rfl
  exact ⟨h, (claim_C5_assembler _ _ h).2.1,
    (claim_C5_assembler _ _ h).2.2 0 (by decide)⟩

/-- A single bad record (undecodable hex or decoded length other than 32)
forces assembly to the `MalformedRecord` error. -/
theorem assemble_error_of_bad :
    ∀ (records : List (List Char)) (r : List Char), r ∈ records →
      (hexDecode r = none ∨
        ∀ bytes, hexDecode r = some bytes → bytes.length ≠ 32) →
      assemble records = .error .malformedRecord := by
  intro records
  induction records with
  | nil => intro r hmem _; exact absurd hmem (by simp)
  | cons r' rs ih =>
    intro r hmem hbad
    rcases List.mem_cons.mp hmem with rfl | hmem'
    · simp only [assemble]
      split
      · rfl
      next bytes hd =>
        rcases hbad with hnone | hlen
        · rw [hd] at hnone; exact absurd hnone (by simp)
        · rw [if_neg (hlen bytes hd)]
    · simp only [assemble]
      split
      · rfl
      next bytes hd =>
        split
        · rw [ih r hmem' hbad]
        · rfl

/-- C6: if any input record's hex encoding is invalid or its decoded length
is not 32 bytes, assembly fails fast with the `MalformedRecord` error and the
whole pipeline aborts with that error — encoding, loss simulation and
decoding never run, for any symbol size, repair count, loss count and
shuffle. -/
theorem claim_C6_malformed (records : List (List Char)) (r : List Char)
    (hmem : r ∈ records)
    (hbad : hexDecode r = none ∨
      ∀ bytes, hexDecode r = some bytes → bytes.length ≠ 32)
    (s rep loss : Nat) (shuffle : List Packet → List Packet) :
    assemble records = .error .malformedRecord ∧
      runPipeline records s rep loss shuffle = .error .malformedRecord := by
  have ha := assemble_error_of_bad records r hmem hbad
  exact ⟨ha, by simp only [runPipeline, ha]⟩

/-- Witness for C6 on a concrete malformed record (the single character `x`,
not valid hex): the pipeline aborts with `MalformedRecord`. -/
theorem claim_C6_malformed_witness :
    assemble [['x']] = .error .malformedRecord ∧
      runPipeline [['x']] 128 10 8 id = .error .malformedRecord :=
  claim_C6_malformed [['x']] ['x'] (by decide) (Or.inl (by decide)) 128 10 8 id

/-- Full behaviour of exact chunking with sufficient fuel: exactly
`⌊length / s⌋` chunks are produced, they cover exactly the first
`s × ⌊length / s⌋` elements, and every chunk has length `s`. -/
theorem chunksExactGo_spec :
    ∀ (fuel s : Nat) (l : List Nat), l.length ≤ fuel →
      (chunksExactGo fuel s l).length = l.length / s ∧
        (chunksExactGo fuel s l).flatten = l.take (s * (l.length / s)) ∧
        (chunksExactGo fuel s l).all (fun c => c.length == s) = true := by
  intro fuel
  induction fuel with
  | zero =>
    intro s l hl
    have hnil : l = [] := List.length_eq_zero.mp (Nat.le_zero.mp hl)
    subst hnil
    simp [chunksExactGo]
  | succ fuel ih =>
    intro s l hl
    by_cases hc : 0 < s ∧ s ≤ l.length
    · obtain ⟨hs, hsl⟩ := hc
      have hgo : chunksExactGo (fuel + 1) s l =
          l.take s :: chunksExactGo fuel s (l.drop s) := by
        simp [chunksExactGo, hs, hsl]
      have hdl : (l.drop s).length = l.length - s := by simp
      have hfuel : (l.drop s).length ≤ fuel := by omega
      obtain ⟨ihlen, ihflat, ihall⟩ := ih s (l.drop s) hfuel
      have hdiv : l.length / s = (l.length - s) / s + 1 :=
        Nat.div_eq_sub_div hs hsl
      refine ⟨?_, ?_, ?_⟩
      · rw [hgo, List.length_cons, ihlen, hdl, hdiv]
      · rw [hgo, List.flatten_cons, ihflat, hdl, hdiv, Nat.mul_add,
          Nat.mul_one, Nat.add_comm (s * ((l.length - s) / s)) s,
          List.take_add]
      · rw [hgo, List.all_cons, ihall, Bool.and_true, beq_iff_eq,
          List.length_take]
        omega
    · have hgo : chunksExactGo (fuel + 1) s l = [] := by
        simp only [chunksExactGo, if_neg hc]
      have hdiv : l.length / s = 0 := by
        rcases Nat.eq_zero_or_pos s with hs0 | hs1
        · rw [hs0, Nat.div_zero]
        · exact Nat.div_eq_of_lt (by omega)
      rw [hgo, hdiv]
      simp

/-- C7 counterexample: on a 33-byte reconstructed buffer — a length that is
not an exact multiple of 32 — the Verifier does not report any integrity
fault: it returns the single full 32-byte record and silently drops the
trailing byte, so its output does not account for all bytes of the buffer. -/
theorem claim_C7_counterexample :
    ¬ (32 ∣ (List.replicate 33 (0 : Nat)).length) ∧
      verify (List.replicate 33 0) = [List.replicate 32 0] ∧
      (verify (List.replicate 33 0)).flatten ≠ List.replicate 33 (0 : Nat) := by
  refine ⟨by decide, by decide, by decide⟩

/-- C7 as amended: the Verifier re-chunks the reconstructed buffer into
32-byte records yielding exactly `⌊buffer_length / 32⌋` records, each of
length 32; when the length is not an exact multiple of 32 the trailing bytes
are silently dropped (the output covers exactly the first
`32 × ⌊buffer_length / 32⌋` bytes) — no integrity fault is reported. -/
theorem claim_C7_amended (recovered : List Nat) :
    (verify recovered).length = recovered.length / 32 ∧
      (verify recovered).flatten =
        recovered.take (32 * (recovered.length / 32)) ∧
      (verify recovered).all (fun c => c.length == 32) = true :=
  chunksExactGo_spec recovered.length 32 recovered (Nat.le_refl _)

/-- C8 counterexample: with valid records and a simulated loss larger than
the generated packet count, reconstruction fails (the outcome is
`InsufficientRedundancy`), yet `main` still terminates with `Ok(())` —
exit status 0, a success status — so the exit status does not reflect the
reconstruction failure. -/
theorem claim_C8_counterexample :
    runPipeline [List.replicate 64 '0'] 128 10 1000 id =
        .ok .insufficientRedundancy ∧
      exitCode (runPipeline [List.replicate 64 '0'] 128 10 1000 id) = 0 := by
  exact ⟨rfl, rfl⟩

/-- C8 as amended: the process exit status reflects the success or failure of
record assembly, not of reconstruction: `main` returns its only `Err` (and
hence a failure exit status) exactly when assembly fails, while both
reconstruction outcomes — success and Terminal-Exhausted — return `Ok(())`
and hence a success exit status. -/
theorem claim_C8_amended (records : List (List Char)) (s rep loss : Nat)
    (shuffle : List Packet → List Packet) :
    (runPipeline records s rep loss shuffle).isOk = (assemble records).isOk ∧
      (exitCode (runPipeline records s rep loss shuffle) = 0 ↔
        (assemble records).isOk = true) := by
  cases h : assemble records with
  | error e =>
    simp [runPipeline, h, exitCode, Except.isOk, Except.toBool]
  | ok dataBytes =>
    simp [runPipeline, h, exitCode, Except.isOk, Except.toBool]

/-- Concatenating the source-symbol slices of a buffer, in symbol order,
recovers the buffer (for a positive symbol size). Proved by induction on a
fuel bound of the buffer length. -/
theorem flatten_range_chunkAt (s : Nat) (hs : 1 ≤ s) :
    ∀ (n : Nat) (l : List Nat), l.length ≤ n →
      ((List.range ((l.length + s - 1) / s)).map fun i =>
        chunkAt l s i).flatten = l := by
  intro n
  induction n with
  | zero =>
    intro l hl
    have hnil : l = [] := List.length_eq_zero.mp (Nat.le_zero.mp hl)
    subst hnil
    have h0 : ((List.nil (α := Nat)).length + s - 1) / s = 0 :=
      Nat.div_eq_of_lt (by simp; omega)
    rw [h0]
    simp
  | succ n ih =>
    intro l hl
    rcases Nat.eq_zero_or_pos l.length with h0 | hpos
    · have hnil : l = [] := List.length_eq_zero.mp h0
      subst hnil
      have h0' : ((List.nil (α := Nat)).length + s - 1) / s = 0 :=
        Nat.div_eq_of_lt (by simp; omega)
      rw [h0']
      simp
    · have hdl : (l.drop s).length = l.length - s := by simp
      have hK : (l.length + s - 1) / s =
          ((l.drop s).length + s - 1) / s + 1 := by
        rw [hdl]
        rcases Nat.lt_or_ge s l.length with hlt | hge
        · have h3 : l.length + s - 1 = (l.length - s - 1) + s + s := by omega
          have h5 : (l.length - s) + s - 1 = (l.length - s - 1) + s := by
            omega
          rw [h3, h5, Nat.add_div_right _ (by omega : 0 < s),
            Nat.add_div_right _ (by omega : 0 < s)]
        · have h1 : l.length - s = 0 := by omega
          have h3 : l.length + s - 1 = (l.length - 1) + s := by omega
          rw [h1, h3, Nat.add_div_right _ (by omega : 0 < s)]
          have h2 : (0 + s - 1) / s = 0 := Nat.div_eq_of_lt (by omega)
          have h4 : (l.length - 1) / s = 0 := Nat.div_eq_of_lt (by omega)
          rw [h2, h4]
      rw [hK, List.range_succ_eq_map, List.map_cons, List.map_map,
        List.flatten_cons]
      have hcomp : ((List.range (((l.drop s).length + s - 1) / s)).map
          ((fun i => chunkAt l s i) ∘ Nat.succ)) =
          ((List.range (((l.drop s).length + s - 1) / s)).map fun i =>
            chunkAt (l.drop s) s i) := by
        refine List.map_congr_left ?_
        intro i _
        simp only [Function.comp_apply, chunkAt, List.drop_drop]
        have hmul : Nat.succ i * s = s + i * s := by
          rw [Nat.succ_mul]; omega
        rw [hmul]
      rw [hcomp, ih (l.drop s) (by omega)]
      have hchunk0 : chunkAt l s 0 = l.take s := by
        simp [chunkAt]
      rw [hchunk0, List.take_append_drop]

/-- A successful association-list lookup locates an entry of the list. -/
theorem lookup_mem {l : List (Nat × List Nat)} {k : Nat} {b : List Nat}
    (h : l.lookup k = some b) : (k, b) ∈ l := by
  obtain ⟨l₁, l₂, rfl, -⟩ := List.lookup_eq_some_iff.mp h
  exact List.mem_append_right _ (List.mem_cons_self _ _)

/-- A lookup that succeeds still succeeds after consing a new entry. -/
theorem lookup_cons_isSome {k j : Nat} {d : List Nat}
    {l : List (Nat × List Nat)} (h : (l.lookup k).isSome = true) :
    ((((j, d) :: l).lookup k).isSome) = true := by
  rw [List.lookup_isSome_iff] at h ⊢
  obtain ⟨q, hq, he⟩ := h
  exact ⟨q, List.mem_cons_of_mem _ hq, he⟩

/-- Invariant of a decoding session driven by packets of the stream for
buffer `data` and symbol size `s`: the configuration is the encoder's, and
every recorded entry is a source-symbol index holding exactly the matching
slice of `data`. -/
def goodFor (data : List Nat) (s : Nat) (st : DecState) : Prop :=
  st.cfg = encodeConfig data s ∧
  ∀ pr ∈ st.received,
    pr.1 < sourceSymbolCount (encodeConfig data s) ∧ pr.2 = chunkAt data s pr.1

/-- A stream packet whose symbol index is a source index carries exactly the
matching slice of the buffer. -/
theorem encodePackets_source_data {data : List Nat} {s r : Nat} {p : Packet}
    (hp : p ∈ encodePackets data s r)
    (hlt : p.payloadId.esi < sourceSymbolCount (encodeConfig data s)) :
    p.data = chunkAt data s p.payloadId.esi := by
  simp only [encodePackets, List.mem_append, List.mem_map,
    List.mem_range] at hp
  rcases hp with ⟨i, hi, rfl⟩ | ⟨j, hj, rfl⟩
  · rfl
  · exfalso
    simp only at hlt
    omega

/-- Every source symbol appears in the generated packet stream. -/
theorem source_mem_encodePackets (data : List Nat) (s r : Nat) {i : Nat}
    (hi : i < sourceSymbolCount (encodeConfig data s)) :
    (⟨⟨0, i⟩, chunkAt data s i⟩ : Packet) ∈ encodePackets data s r := by
  simp only [encodePackets, List.mem_append, List.mem_map, List.mem_range]
  exact Or.inl ⟨i, hi, rfl⟩

/-- Observing a stream packet preserves the session invariant. -/
theorem updState_good {data : List Nat} {s r : Nat} {st : DecState}
    {p : Packet} (hg : goodFor data s st) (hp : p ∈ encodePackets data s r) :
    goodFor data s (updState st p) := by
  obtain ⟨hcfg, hrec⟩ := hg
  unfold updState
  split
  next hlt =>
    rw [hcfg] at hlt
    refine ⟨hcfg, ?_⟩
    intro pr hpr
    rcases List.mem_cons.mp hpr with rfl | hpr'
    · exact ⟨hlt, encodePackets_source_data hp hlt⟩
    · exact hrec pr hpr'
  next => exact ⟨hcfg, hrec⟩

/-- Observing a packet never discards an already-received source symbol. -/
theorem updState_lookup_isSome {st : DecState} {p : Packet} {i : Nat}
    (h : (st.received.lookup i).isSome = true) :
    ((updState st p).received.lookup i).isSome = true := by
  unfold updState
  split
  · exact lookup_cons_isSome h
  · exact h

/-- After observing a source-symbol packet, that symbol is received. -/
theorem updState_lookup_self {st : DecState} {p : Packet}
    (hlt : p.payloadId.esi < sourceSymbolCount st.cfg) :
    ((updState st p).received.lookup p.payloadId.esi).isSome = true := by
  unfold updState
  rw [if_pos hlt]
  simp

/-- A complete session respecting the invariant reassembles exactly the
original buffer. -/
theorem assembled_eq_data {data : List Nat} {s : Nat} {st : DecState}
    (hs : 1 ≤ s) (hg : goodFor data s st) (hc : st.complete = true) :
    st.assembled = data := by
  obtain ⟨hcfg, hrec⟩ := hg
  unfold DecState.assembled
  rw [hcfg]
  unfold DecState.complete at hc
  rw [hcfg] at hc
  have hmap : ((List.range (sourceSymbolCount (encodeConfig data s))).map
      fun i => (st.received.lookup i).getD []) =
      ((List.range (sourceSymbolCount (encodeConfig data s))).map
        fun i => chunkAt data s i) := by
    refine List.map_congr_left ?_
    intro i hi
    have hsome : (st.received.lookup i).isSome = true :=
      List.all_eq_true.mp hc i hi
    obtain ⟨d, hd⟩ := Option.isSome_iff_exists.mp hsome
    have hmem : (i, d) ∈ st.received := lookup_mem hd
    have hchunk : d = chunkAt data s i := (hrec (i, d) hmem).2
    rw [hd, Option.getD_some, hchunk]
  rw [hmap]
  exact flatten_range_chunkAt s hs data.length data (Nat.le_refl _)

/-- Main loop invariant argument: a session in the invariant, not yet
complete, fed packets from the stream that still include every missing
source symbol, terminates with the original buffer. -/
theorem reconstruct_completes (data : List Nat) (s r : Nat) (hs : 1 ≤ s) :
    ∀ (fed : List Packet) (st : DecState),
      goodFor data s st →
      st.complete = false →
      (∀ p ∈ fed, p ∈ encodePackets data s r) →
      (∀ i, i < sourceSymbolCount (encodeConfig data s) →
        (st.received.lookup i).isSome = true ∨
          (⟨⟨0, i⟩, chunkAt data s i⟩ : Packet) ∈ fed) →
      reconstruct DecState.feed st fed = some data := by
  intro fed
  induction fed with
  | nil =>
    intro st hg hnc _ hcov
    exfalso
    have hct : st.complete = true := by
      unfold DecState.complete
      rw [hg.1]
      refine List.all_eq_true.mpr ?_
      intro i hi
      rcases hcov i (List.mem_range.mp hi) with hsome | hmem
      · exact hsome
      · exact absurd hmem (List.not_mem_nil _)
    rw [hct] at hnc
    cases hnc
  | cons p rest ih =>
    intro st hg hnc hsub hcov
    have hpmem : p ∈ encodePackets data s r := hsub p (List.mem_cons_self _ _)
    have hg' : goodFor data s (updState st p) := updState_good hg hpmem
    by_cases hc : (updState st p).complete = true
    · have hfeed : DecState.feed st p =
          (updState st p, some (updState st p).assembled) := by
        simp only [DecState.feed]
        rw [if_pos hc]
      simp only [reconstruct, hfeed]
      rw [assembled_eq_data hs hg' hc]
    · have hcfalse : (updState st p).complete = false :=
        Bool.eq_false_iff.mpr hc
      have hfeed : DecState.feed st p = (updState st p, none) := by
        simp only [DecState.feed]
        rw [if_neg (by simp [hcfalse])]
      simp only [reconstruct, hfeed]
      refine ih (updState st p) hg' hcfalse
        (fun q hq => hsub q (List.mem_cons_of_mem _ hq)) ?_
      intro i hi
      rcases hcov i hi with hsome | hmem
      · exact Or.inl (updState_lookup_isSome hsome)
      · rcases List.mem_cons.mp hmem with heq | hmem'
        · left
          subst heq
          have hlt : (⟨⟨0, i⟩, chunkAt data s i⟩ : Packet).payloadId.esi <
              sourceSymbolCount st.cfg := by
            rw [hg.1]
            exact hi
          exact updState_lookup_self hlt
        · exact Or.inr hmem'

/-- C1: for every non-empty sequence of fixed-length records whose
concatenation assembles to `buf`, encoding with any symbol size ≥ 1 and any
repair count ≥ 0, and feeding every generated packet — in any order — into a
fresh decoding session, reconstructs a buffer byte-identical to `buf`. -/
theorem claim_C1_roundtrip (records : List (List Char)) (buf : List Nat)
    (s r : Nat) (fed : List Packet) (hrec : records ≠ [])
    (hok : assemble records = .ok buf) (hs : 1 ≤ s)
    (hperm : fed.Perm (encodePackets buf s r)) :
    reconstruct DecState.feed (initDecState (encodeConfig buf s)) fed =
      some buf := by
  have hlen : buf.length = 32 * records.length :=
    (assemble_ok_spec records buf hok).2.1
  have hrl : records.length ≠ 0 := fun h => hrec (List.length_eq_zero.mp h)
  have hpos : 0 < buf.length := by omega
  have hK : 1 ≤ sourceSymbolCount (encodeConfig buf s) := by
    unfold sourceSymbolCount encodeConfig
    simp only
    rw [Nat.le_div_iff_mul_le (by omega)]
    omega
  refine reconstruct_completes buf s r hs fed
    (initDecState (encodeConfig buf s)) ⟨rfl, ?_⟩ ?_
    (fun q hq => hperm.subset hq) ?_
  · intro pr hpr
    exact absurd hpr (List.not_mem_nil _)
  · unfold DecState.complete initDecState
    refine List.all_eq_false.mpr ⟨0, List.mem_range.mpr hK, ?_⟩
    simp [List.lookup]
  · intro i hi
    exact Or.inr (hperm.mem_iff.mpr (source_mem_encodePackets buf s r hi))

/-- Witness for C1 on a concrete single all-zero record, symbol size 32,
repair count 1, with the packets fed in reversed order: the decoding session
reconstructs the original 32-byte buffer. -/
theorem claim_C1_roundtrip_witness :
    assemble [List.replicate 64 '0'] = .ok (List.replicate 32 0) ∧
      reconstruct DecState.feed
        (initDecState (encodeConfig (List.replicate 32 0) 32))
        ((encodePackets (List.replicate 32 0) 32 1).reverse) =
        some (List.replicate 32 0) :=
  ⟨by rfl,
    claim_C1_roundtrip [List.replicate 64 '0'] (List.replicate 32 0) 32 1
      ((encodePackets (List.replicate 32 0) 32 1).reverse)
      (by simp) (by rfl) (by omega) (List.reverse_perm _)⟩
